import Mathlib

/-
Verification development for the Label Studio → COCO keypoint converter
(`LS-full2Coco-KPT.py`).  The converter class `LSConverter` is shallowly
embedded here: floating point coordinates are modelled as rationals,
Python dictionaries as insertion-ordered association lists, and the
exceptions the Python code can raise (`IndexError`, `KeyError`,
`TypeError`, unpacking `ValueError`) as an `Except` error type.
-/

namespace LSKpt

/-- Python exceptions that the converter can raise while running. -/
inductive PyErr where
  | indexError
  | keyError
  | typeError
  | valueError
deriving DecidableEq

/-- Python truthiness of an optional numeric value: `None` and `0` are falsy.
Used for the `if not height or not width` style checks in the source. -/
def pyFalsy : Option ℚ → Bool
  | none => true
  | some w => decide (w = 0)

/-- Lookup in an insertion-ordered association list (Python `d[k]` /
`k in d`): the first entry with the key (keys are unique by construction). -/
def alGet {β : Type} : List (String × β) → String → Option β
  | [], _ => none
  | (k', v) :: rest, k => if k = k' then some v else alGet rest k

/-- Write to an insertion-ordered association list (Python `d[k] = v`):
an existing key is overwritten in place, a new key is appended at the end,
matching Python dict insertion-order semantics. -/
def alSet {β : Type} : List (String × β) → String → β → List (String × β)
  | [], k, v => [(k, v)]
  | (k', v') :: rest, k, v =>
      if k = k' then (k, v) :: rest else (k', v') :: alSet rest k v

/-- One `<Label value=... background=... hotkey=...>` element of the
labeling-config XML. -/
structure ConfigLabel where
  value : String
  background : Option String
  hotkey : Option String
deriving DecidableEq

/-- A category entry built by `LSConverter.__init__` (rectangle entries
carry no hotkey; the source simply omits the key, modelled as `none`). -/
structure Category where
  id : Nat
  name : String
  color : Option String
  hotkey : Option String
  label_type : String
deriving DecidableEq

/-- The category list built by one of the two `enumerate(..., start=1)`
loops of `LSConverter.__init__` (the `idx` argument is the running index). -/
def buildCatsFrom (labelType : String) : Nat → List ConfigLabel → List Category
  | _, [] => []
  | idx, l :: rest =>
      { id := idx, name := l.value, color := l.background,
        hotkey := if labelType = "polygon" then l.hotkey else none,
        label_type := labelType } :: buildCatsFrom labelType (idx + 1) rest

/-- The `name_to_id` dict built alongside the category list:
`self.xxx_name_to_id[label.get('value')] = idx` on each iteration. -/
def buildNameToId : Nat → List ConfigLabel → List (String × Nat) → List (String × Nat)
  | _, [], m => m
  | idx, l :: rest, m => buildNameToId (idx + 1) rest (alSet m l.value idx)

/-- The state `LSConverter.__init__` leaves on the instance: two category
lists and two name→id maps, rectangle and polygon kept fully separate. -/
structure Converter where
  rect_categories : List Category
  poly_categories : List Category
  rect_name_to_id : List (String × Nat)
  poly_name_to_id : List (String × Nat)
deriving DecidableEq

/-- `LSConverter.__init__`: the rectangle labels and the polygon labels
found in the config, each enumerated independently starting at 1. -/
def mkConverter (rectLabels polyLabels : List ConfigLabel) : Converter :=
  { rect_categories := buildCatsFrom "rectangle" 1 rectLabels
    poly_categories := buildCatsFrom "polygon" 1 polyLabels
    rect_name_to_id := buildNameToId 1 rectLabels []
    poly_name_to_id := buildNameToId 1 polyLabels [] }

/-- A `rectanglelabels` result record.  `topDims` is `Some (w, h)` when
both `original_width` and `original_height` are present at the label's top
level, `valueDims` likewise for the nested `value` object.  `hasPointsKey`
records whether the malformed key `points` occurs in `value`. -/
structure RectLab where
  id : String
  topDims : Option (ℚ × ℚ)
  valueDims : Option (ℚ × ℚ)
  x : ℚ
  y : ℚ
  width : ℚ
  height : ℚ
  rectanglelabels : List String
  hasPointsKey : Bool
deriving DecidableEq

/-- A `polygonlabels` result record; `hasXKey` records whether the
malformed key `x` occurs in `value`. -/
structure PolyLab where
  id : String
  parentID : Option String
  topDims : Option (ℚ × ℚ)
  valueDims : Option (ℚ × ℚ)
  points : List (ℚ × ℚ)
  polygonlabels : List String
  hasXKey : Bool
deriving DecidableEq

/-- One element of a task's `result` list. -/
inductive RawLabel where
  | rect (r : RectLab)
  | poly (p : PolyLab)
  | other (valueDims topDims : Option (ℚ × ℚ))
deriving DecidableEq

/-- `original_width`/`original_height` looked up inside `label['value']`
(present only when both keys are). -/
def RawLabel.valueDims : RawLabel → Option (ℚ × ℚ)
  | .rect r => r.valueDims
  | .poly p => p.valueDims
  | .other v _ => v

/-- `original_width`/`original_height` looked up at the label's top level. -/
def RawLabel.topDims : RawLabel → Option (ℚ × ℚ)
  | .rect r => r.topDims
  | .poly p => p.topDims
  | .other _ t => t

/-- `LSConverter._convert_bbox`: percentage box to pixel box
`[x*w/100, y*h/100, width*w/100, height*h/100]`.  When width or height is
falsy (`None`/`0`) both are replaced by the label's own top-level
`original_width`/`original_height`; absence of those keys is a `KeyError`. -/
def convertBbox (r : RectLab) (width height : Option ℚ) : Except PyErr (List ℚ) :=
  if pyFalsy width || pyFalsy height then
    match r.topDims with
    | none => .error .keyError
    | some (w, h) =>
        .ok [r.x * w / 100, r.y * h / 100, r.width * w / 100, r.height * h / 100]
  else
    match width, height with
    | some w, some h =>
        .ok [r.x * w / 100, r.y * h / 100, r.width * w / 100, r.height * h / 100]
    | _, _ => .error .typeError

/-- The flat `[x, y, 2, x, y, 2, ...]` keypoint list built by the loop in
`_convert_single_keypoint` (visibility constant 2 = visible). -/
def flattenPts (w h : ℚ) : List (ℚ × ℚ) → List ℚ
  | [] => []
  | (px, py) :: rest => px * w / 100 :: py * h / 100 :: 2 :: flattenPts w h rest

/-- `LSConverter._convert_single_keypoint`: converts one polygon record's
points to pixel space, with the same falsy-dimension fallback to the
label's own top-level dims as `_convert_bbox`; returns the flat coordinate
list and the point count. -/
def convertSingleKeypoint (p : PolyLab) (width height : Option ℚ) :
    Except PyErr (List ℚ × Nat) :=
  if pyFalsy width || pyFalsy height then
    match p.topDims with
    | none => .error .keyError
    | some (w, h) => .ok (flattenPts w h p.points, p.points.length)
  else
    match width, height with
    | some w, some h => .ok (flattenPts w h p.points, p.points.length)
    | _, _ => .error .typeError

/-- The stride-3 pairing `[(kp[i], kp[i+1]) for i in range(0, len, 3)]`
used to recover (x, y) pairs from a flat keypoint list.  Callers only ever
pass lists built by `flattenPts`, whose length is a multiple of 3, so the
short-tail patterns are unreachable. -/
def stride3Pairs : List ℚ → List (ℚ × ℚ)
  | x :: y :: _ :: rest => (x, y) :: stride3Pairs rest
  | x :: y :: [] => [(x, y)]
  | _ => []

/-- The containment test `x_min <= x <= x_max and y_min <= y <= y_max`. -/
def inBox (xmin ymin xmax ymax : ℚ) (pt : ℚ × ℚ) : Bool :=
  decide (xmin ≤ pt.1) && decide (pt.1 ≤ xmax) &&
  decide (ymin ≤ pt.2) && decide (pt.2 ≤ ymax)

/-- The cyclic shoelace-style sum
`Σ (x[(i+1) % n] - x[i]) * (y[(i+1) % n] + y[i])` computed inside
`_check_polygon_order`. -/
def shoelaceTotal (pts : List (ℚ × ℚ)) : ℚ :=
  (List.range pts.length).foldl
    (fun acc i =>
      acc + ((pts.getD ((i + 1) % pts.length) (0, 0)).1 - (pts.getD i (0, 0)).1) *
            ((pts.getD ((i + 1) % pts.length) (0, 0)).2 + (pts.getD i (0, 0)).2))
    0

/-- `LSConverter._check_polygon_order`: fewer than 3 points is not a valid
polygon (`False`); otherwise the sign of the cyclic sum is compared with
the expected orientation (`total < 0` taken as clockwise). -/
def checkPolygonOrder (pts : List (ℚ × ℚ)) (expectedClockwise : Bool) : Bool :=
  if pts.length < 3 then false
  else decide (shoelaceTotal pts < 0) == expectedClockwise

/-- An entry of the per-task `annotations_dict`. -/
structure Entry where
  image_id : Nat
  bbox : Option RectLab
  keypoints : List PolyLab
  has_draft : Bool
deriving DecidableEq

/-- An element of the per-task `orphan_keypoints_list` (the stored width
and height are snapshots at queueing time; the source never reads them
back, the orphan loop uses the task-level variables instead). -/
structure Orphan where
  image_id : Nat
  label : PolyLab
  width : Option ℚ
  height : Option ℚ
deriving DecidableEq

/-- One entry of the output `images` list. -/
structure OutImage where
  id : Nat
  width : ℚ
  height : ℚ
  file_name : String
  label_studio_image_id : Nat
deriving DecidableEq

/-- One entry of the output `annotations` list. -/
structure OutAnn where
  id : Nat
  image_id : Nat
  category_id : Nat
  bbox : List ℚ
  area : ℚ
  keypoints : List ℚ
  num_keypoints : Nat
  iscrowd : Nat
  bbox_label : List String
  author_id : Nat
deriving DecidableEq

/-- The diagnostics the converter prints (`warnings.warn` /
`logger.warning`), abstracted to tagged records carrying the identifying
payload of the corresponding message. -/
inductive Warning where
  | dimsNotFound (imageName : String)
  | noAnnotations (lsImageId : Nat)
  | rectHasPoints (author lsImageId : Nat)
  | polyHasX (author lsImageId : Nat)
  | unknownLabelType
  | kptCountNot4 (n : Nat) (author lsImageId : Nat) (labelId : String)
  | kptOutOfRange (author lsImageId : Nat) (labelId : String)
  | frontOrder (author lsImageId : Nat) (labelId : String)
  | backOrder (author lsImageId : Nat) (labelId : String)
  | orphanUnmatched (lsImageId : Nat) (labelId : String) (author : Nat)
deriving DecidableEq

/-- One element of a task's `annotations` list. -/
structure TaskAnn where
  completed_by : Nat
  result : List RawLabel
deriving DecidableEq

/-- One task of the export (`item` in the source). -/
structure Task where
  id : Nat
  image : String
  drafts : List String
  annotationList : List TaskAnn
deriving DecidableEq

/-- The mutable state of the per-task label loop: the dimension variables,
the growing `images_coco` list, `annotations_dict`, the orphan queue and
the diagnostics so far. -/
structure LoopSt where
  width : Option ℚ
  height : Option ℚ
  images : List OutImage
  annDict : List (String × Entry)
  orphans : List Orphan
  warns : List Warning
deriving DecidableEq

/-- The dimension-resolution block at the top of the label loop: while
width or height is falsy, try `value`, then the top level; on success set
both and append the image entry, on failure warn and skip the label
(`continue`).  Returns the new state and the skip flag. -/
def dimsStep (imageId : Nat) (imageName : String) (lsId : Nat)
    (st : LoopSt) (lab : RawLabel) : LoopSt × Bool :=
  if pyFalsy st.height || pyFalsy st.width then
    match lab.valueDims with
    | some (ow, oh) =>
        ({ st with
             width := some ow
             height := some oh
             images := st.images ++ [⟨imageId, ow, oh, imageName, lsId⟩] }, false)
    | none =>
        match lab.topDims with
        | some (ow, oh) =>
            ({ st with
                 width := some ow
                 height := some oh
                 images := st.images ++ [⟨imageId, ow, oh, imageName, lsId⟩] }, false)
        | none => ({ st with warns := st.warns ++ [.dimsNotFound imageName] }, true)
  else (st, false)

/-- The `rectanglelabels` branch of the label loop: a malformed box label
(carrying a `points` key) is rejected with a diagnostic; a box whose id is
already a key of `annotations_dict` overwrites that entry's `bbox` (and
`has_draft`), otherwise a fresh entry with empty keypoints is created. -/
def rectStep (imageId : Nat) (hasDraft : Bool) (author lsId : Nat)
    (st : LoopSt) (r : RectLab) : LoopSt :=
  if r.hasPointsKey then
    { st with warns := st.warns ++ [.rectHasPoints author lsId] }
  else
    match alGet st.annDict r.id with
    | some e =>
        let e' := { e with bbox := some r, has_draft := hasDraft }
        { st with annDict := alSet st.annDict r.id e' }
    | none =>
        { st with annDict := alSet st.annDict r.id ⟨imageId, some r, [], hasDraft⟩ }

/-- The `polygonlabels` branch of the label loop: a malformed polygon
label (carrying an `x` key) is rejected with a diagnostic; a truthy
`parentID` appends the record to (or creates a boxless placeholder for)
the parent's entry, otherwise the record joins the orphan queue. -/
def polyStep (imageId : Nat) (hasDraft : Bool) (author lsId : Nat)
    (st : LoopSt) (p : PolyLab) : LoopSt :=
  if p.hasXKey then
    { st with warns := st.warns ++ [.polyHasX author lsId] }
  else
    match p.parentID with
    | some pid =>
        if pid = "" then
          { st with orphans := st.orphans ++ [⟨imageId, p, st.width, st.height⟩] }
        else
          match alGet st.annDict pid with
          | none =>
              { st with annDict := alSet st.annDict pid ⟨imageId, none, [p], hasDraft⟩ }
          | some e =>
              let e' := { e with keypoints := e.keypoints ++ [p] }
              { st with annDict := alSet st.annDict pid e' }
    | none =>
        { st with orphans := st.orphans ++ [⟨imageId, p, st.width, st.height⟩] }

/-- One iteration of the label loop.  `annsEmpty` is the (always false at
this point, since an empty `annotations` list has already raised) check
`if not item['annotations']`, kept for fidelity. -/
def processLabel (annsEmpty : Bool) (imageId : Nat) (imageName : String)
    (lsId : Nat) (hasDraft : Bool) (author : Nat)
    (st : LoopSt) (lab : RawLabel) : LoopSt :=
  let step := dimsStep imageId imageName lsId st lab
  if step.2 then step.1
  else if annsEmpty then
    { step.1 with warns := step.1.warns ++ [.noAnnotations lsId] }
  else
    match lab with
    | .rect r => rectStep imageId hasDraft author lsId step.1 r
    | .poly p => polyStep imageId hasDraft author lsId step.1 p
    | .other _ _ => { step.1 with warns := step.1.warns ++ [.unknownLabelType] }

/-- The full label loop over a task's `result` list. -/
def processLabels (annsEmpty : Bool) (imageId : Nat) (imageName : String)
    (lsId : Nat) (hasDraft : Bool) (author : Nat) :
    LoopSt → List RawLabel → LoopSt
  | st, [] => st
  | st, lab :: rest =>
      processLabels annsEmpty imageId imageName lsId hasDraft author
        (processLabel annsEmpty imageId imageName lsId hasDraft author st lab) rest

/-- `label['value']['polygonlabels'][0]`: first declared polygon label
name (an empty list raises `IndexError`). -/
def headName (l : List String) : Except PyErr String :=
  match l with
  | [] => .error .indexError
  | n :: _ => .ok n

/-- `self.poly_name_to_id[name]`: dictionary lookup raising `KeyError`. -/
def lookupId (m : List (String × Nat)) (name : String) : Except PyErr Nat :=
  match alGet m name with
  | none => .error .keyError
  | some i => .ok i

/-- The body of the inner keypoint loop of the first emission pass: arity
check, containment check, category lookup, advisory winding-order checks,
then the append of one output annotation. -/
def emitKeypoint (conv : Converter) (width height : Option ℚ)
    (imageId author lsId : Nat) (xmin ymin w h : ℚ) (bboxAnn : RectLab)
    (anns : List OutAnn) (warns : List Warning) (kp : PolyLab) :
    Except PyErr (List OutAnn × List Warning) :=
  match convertSingleKeypoint kp width height with
  | .error e => .error e
  | .ok (keypoints, num) =>
    if num ≠ 4 then
      .ok (anns, warns ++ [.kptCountNot4 num author lsId kp.id])
    else
      let absPts := stride3Pairs keypoints
      if ¬ absPts.all (inBox xmin ymin (xmin + w) (ymin + h)) then
        .ok (anns, warns ++ [.kptOutOfRange author lsId kp.id])
      else
        match headName kp.polygonlabels with
        | .error e => .error e
        | .ok name =>
          match lookupId conv.poly_name_to_id name with
          | .error e => .error e
          | .ok catId =>
            let warns2 :=
              if catId = 1 then
                if ¬ checkPolygonOrder absPts false then
                  warns ++ [.frontOrder author lsId kp.id]
                else warns
              else if catId = 3 then
                if ¬ checkPolygonOrder absPts true then
                  warns ++ [.backOrder author lsId kp.id]
                else warns
              else warns
            let ann : OutAnn :=
              { id := anns.length
                image_id := imageId
                category_id := catId
                bbox := [xmin, ymin, w, h]
                area := w * h
                keypoints := keypoints
                num_keypoints := num
                iscrowd := 0
                bbox_label := bboxAnn.rectanglelabels
                author_id := author }
            .ok (anns ++ [ann], warns2)

/-- The inner keypoint loop of the first emission pass. -/
def emitKeypoints (conv : Converter) (width height : Option ℚ)
    (imageId author lsId : Nat) (xmin ymin w h : ℚ) (bboxAnn : RectLab) :
    List OutAnn → List Warning → List PolyLab →
    Except PyErr (List OutAnn × List Warning)
  | anns, warns, [] => .ok (anns, warns)
  | anns, warns, kp :: rest =>
      match emitKeypoint conv width height imageId author lsId
              xmin ymin w h bboxAnn anns warns kp with
      | .error e => .error e
      | .ok (anns', warns') =>
          emitKeypoints conv width height imageId author lsId
            xmin ymin w h bboxAnn anns' warns' rest

/-- The first emission pass over `annotations_dict` (parent-linked
keypoint sets): entries without a box are skipped, otherwise the box is
converted and every accumulated keypoint record is processed. -/
def emitFromDict (conv : Converter) (width height : Option ℚ)
    (imageId author lsId : Nat) :
    List OutAnn → List Warning → List (String × Entry) →
    Except PyErr (List OutAnn × List Warning)
  | anns, warns, [] => .ok (anns, warns)
  | anns, warns, (_, e) :: rest =>
      match e.bbox with
      | none => emitFromDict conv width height imageId author lsId anns warns rest
      | some r =>
          match convertBbox r width height with
          | .error err => .error err
          | .ok bbox =>
              match bbox with
              | [xmin, ymin, w, h] =>
                  match emitKeypoints conv width height imageId author lsId
                          xmin ymin w h r anns warns e.keypoints with
                  | .error err => .error err
                  | .ok (anns', warns') =>
                      emitFromDict conv width height imageId author lsId
                        anns' warns' rest
              | _ => .error .valueError

/-- The ingredients of an orphan-resolved output annotation gathered at
the first matching box. -/
structure OrphanHit where
  bbox : List ℚ
  category_id : Nat
  keypoints : List ℚ
  num_keypoints : Nat
  bbox_label : List String
deriving DecidableEq

/-- The `for label_studio_bbox_id, data in annotations_dict.items()` scan
of the orphan loop: skip boxless entries, convert the box, and stop at the
first box whose inclusive bounds contain every converted orphan point
(`break` after appending). -/
def orphanScan (conv : Converter) (width height : Option ℚ)
    (absPts : List (ℚ × ℚ)) (kp : PolyLab) :
    List (String × Entry) → Except PyErr (Option OrphanHit)
  | [] => .ok none
  | (_, e) :: rest =>
      match e.bbox with
      | none => orphanScan conv width height absPts kp rest
      | some r =>
          match convertBbox r width height with
          | .error err => .error err
          | .ok bbox =>
              match bbox with
              | [xmin, ymin, w, h] =>
                  if absPts.all (inBox xmin ymin (xmin + w) (ymin + h)) then
                    match headName kp.polygonlabels with
                    | .error err => .error err
                    | .ok name =>
                      match lookupId conv.poly_name_to_id name with
                      | .error err => .error err
                      | .ok catId =>
                        match convertSingleKeypoint kp width height with
                        | .error err => .error err
                        | .ok (ks, num) =>
                            .ok (some ⟨bbox, catId, ks, num, r.rectanglelabels⟩)
                  else orphanScan conv width height absPts kp rest
              | _ => .error .valueError

/-- `[(p[0] * width / 100, p[1] * height / 100) for p in points]`: the
comprehension only touches `width`/`height` when `points` is non-empty, so
an unresolved (`None`) dimension raises `TypeError` exactly then. -/
def absPointsOf (points : List (ℚ × ℚ)) (width height : Option ℚ) :
    Except PyErr (List (ℚ × ℚ)) :=
  match points with
  | [] => .ok []
  | _ =>
      match width, height with
      | some w, some h => .ok (points.map fun pt => (pt.1 * w / 100, pt.2 * h / 100))
      | _, _ => .error .typeError

/-- The orphan loop: convert the queued record's points with the
task-level dimensions, scan `annotations_dict` for the first containing
box, emit on a hit and log a diagnostic otherwise. -/
def processOrphans (conv : Converter) (width height : Option ℚ)
    (imageId author lsId : Nat) (annDict : List (String × Entry)) :
    List OutAnn → List Warning → List Orphan →
    Except PyErr (List OutAnn × List Warning)
  | anns, warns, [] => .ok (anns, warns)
  | anns, warns, o :: rest =>
      match absPointsOf o.label.points width height with
      | .error err => .error err
      | .ok absPts =>
          match orphanScan conv width height absPts o.label annDict with
          | .error err => .error err
          | .ok (some hit) =>
              let ann : OutAnn :=
                { id := anns.length
                  image_id := imageId
                  category_id := hit.category_id
                  bbox := hit.bbox
                  area := hit.bbox.getD 2 0 * hit.bbox.getD 3 0
                  keypoints := hit.keypoints
                  num_keypoints := hit.num_keypoints
                  iscrowd := 0
                  bbox_label := hit.bbox_label
                  author_id := author }
              processOrphans conv width height imageId author lsId annDict
                (anns ++ [ann]) warns rest
          | .ok none =>
              processOrphans conv width height imageId author lsId annDict
                anns (warns ++ [.orphanUnmatched lsId o.label.id author]) rest

/-- The output accumulated across tasks: `images_coco`,
`annotations_coco` and the diagnostics. -/
structure RunAcc where
  images : List OutImage
  anns : List OutAnn
  warns : List Warning
deriving DecidableEq

/-- One iteration of the task loop of `LSConverter.convert_to_coco`:
`image_id = len(images_coco)`, `item['annotations'][0]` (an `IndexError`
when the list is empty), the label loop, the parent-linked emission pass,
then the orphan pass. -/
def processTask (conv : Converter) (acc : RunAcc) (item : Task) :
    Except PyErr RunAcc :=
  let imageId := acc.images.length
  let hasDraft := ! item.drafts.isEmpty
  match item.annotationList with
  | [] => .error .indexError
  | ann0 :: _ =>
      let author := ann0.completed_by
      let st := processLabels item.annotationList.isEmpty imageId item.image
        item.id hasDraft author ⟨none, none, acc.images, [], [], acc.warns⟩
        ann0.result
      match emitFromDict conv st.width st.height imageId author item.id
              acc.anns st.warns st.annDict with
      | .error err => .error err
      | .ok (anns1, warns1) =>
          match processOrphans conv st.width st.height imageId author item.id
                  st.annDict anns1 warns1 st.orphans with
          | .error err => .error err
          | .ok (anns2, warns2) => .ok ⟨st.images, anns2, warns2⟩

/-- The task loop of `convert_to_coco`. -/
def convertTasks (conv : Converter) : RunAcc → List Task → Except PyErr RunAcc
  | acc, [] => .ok acc
  | acc, t :: rest =>
      match processTask conv acc t with
      | .error err => .error err
      | .ok acc' => convertTasks conv acc' rest

/-- `LSConverter.convert_to_coco` on an in-memory export: runs the task
loop from empty accumulators and returns the images, annotations and
diagnostics that make up the output document. -/
def convertRun (conv : Converter) (tasks : List Task) : Except PyErr RunAcc :=
  convertTasks conv ⟨[], [], []⟩ tasks

/-- Every (x, y) pair recovered from the annotation's flat keypoint list
lies within the inclusive pixel bounds of the annotation's own box. -/
def annContainedB (a : OutAnn) : Bool :=
  match a.bbox with
  | [xmin, ymin, w, h] =>
      (stride3Pairs a.keypoints).all (inBox xmin ymin (xmin + w) (ymin + h))
  | _ => false

/-- Projection of a finished run to its annotation list (`none` when the
run raised). -/
def runAnns : Except PyErr RunAcc → Option (List OutAnn)
  | .ok acc => some acc.anns
  | .error _ => none

/-- A candidate box matching an orphan, in the sense of the orphan
resolver: the entry holds a present box whose converted inclusive pixel
bounds contain every converted orphan point. -/
def entryMatches (width height : Option ℚ) (absPts : List (ℚ × ℚ)) (e : Entry) : Prop :=
  ∃ r xmin ymin w h, e.bbox = some r ∧
    convertBbox r width height = .ok [xmin, ymin, w, h] ∧
    absPts.all (inBox xmin ymin (xmin + w) (ymin + h)) = true

/-- Reference definition following the spec's words for the duplicate-name
edge case ("last write wins for the id map"): the 1-based-from-`start` id
of the last config entry carrying the given name. -/
def specLastWriteId (start : Nat) (labels : List ConfigLabel) (name : String) :
    Option Nat :=
  match labels with
  | [] => none
  | l :: rest =>
      match specLastWriteId (start + 1) rest name with
      | some i => some i
      | none => if l.value = name then some start else none

/-- Every dimension value (`original_width`/`original_height`, nested or
top-level) that a label carries is nonzero. -/
def dimsNZb (lab : RawLabel) : Bool :=
  (match lab.valueDims with
   | none => true
   | some (w, h) => ! decide (w = 0) && ! decide (h = 0)) &&
  (match lab.topDims with
   | none => true
   | some (w, h) => ! decide (w = 0) && ! decide (h = 0))

/-- A small labeling config used in concrete checks: one rectangle label
and three polygon labels (so front ↦ 1, side ↦ 2, back ↦ 3). -/
def convFix : Converter :=
  mkConverter [⟨"rect1", none, none⟩]
    [⟨"front", none, none⟩, ⟨"side", none, none⟩, ⟨"back", none, none⟩]

/-- A full-canvas box label whose nested value carries canvas dims 100 × 100. -/
def rectFix : RectLab :=
  ⟨"B1", none, some (100, 100), 0, 0, 100, 100, ["rect1"], false⟩

/-- An orphan polygon label with only three points, all inside the canvas. -/
def polyOrphan3 : PolyLab :=
  ⟨"kp1", none, none, none, [(10, 10), (20, 10), (20, 20)], ["front"], false⟩

/-- A task whose orphan keypoint set has three points. -/
def taskOrphan3 : Task :=
  ⟨5, "img.jpg", [], [⟨7, [.rect rectFix, .poly polyOrphan3]⟩]⟩

/-- A box label on a task whose canvas width resolves to 0: nested dims
(0, 50), its own top-level fallback dims (200, 50). -/
def rectZeroW : RectLab :=
  ⟨"B1", some (200, 50), some (0, 50), 0, 0, 100, 100, ["rect1"], false⟩

/-- An orphan polygon label on the zero-width task, with fallback
top-level dims (1000, 1000) that disagree with the resolved dims. -/
def polyZeroW : PolyLab :=
  ⟨"kp1", none, some (1000, 1000), some (0, 50),
   [(10, 10), (20, 10), (20, 20), (10, 20)], ["front"], false⟩

/-- A task whose canvas width resolves to the falsy value 0. -/
def taskZeroW : Task :=
  ⟨6, "img2.jpg", [], [⟨7, [.rect rectZeroW, .poly polyZeroW]⟩]⟩

/-- A well-formed box label (canvas 100 × 100, box [10, 10, 50, 50] in
percent space). -/
def rectGood : RectLab :=
  ⟨"B1", none, some (100, 100), 10, 10, 50, 50, ["rect1"], false⟩

/-- A well-formed four-point polygon label parent-linked to `rectGood`. -/
def polyGood : PolyLab :=
  ⟨"kp1", some "B1", none, none,
   [(20, 20), (40, 20), (40, 40), (20, 40)], ["front"], false⟩

/-- A fully well-formed task: one box, one parent-linked 4-point set. -/
def taskGood : Task :=
  ⟨1, "g.jpg", [], [⟨3, [.rect rectGood, .poly polyGood]⟩]⟩

/-- A task whose `annotations` list is empty. -/
def taskNoAnns : Task := ⟨9, "img3.jpg", [], []⟩

/-- First candidate box of the two-box orphan scenario (full canvas). -/
def rectA : RectLab := ⟨"A", none, none, 0, 0, 100, 100, ["rect1"], false⟩

/-- Second, later-created candidate box, also containing the orphan, with
a different rectangle label so the winner is observable. -/
def rectB : RectLab := ⟨"B", none, none, 0, 0, 100, 100, ["rect2"], false⟩

/-- A two-point orphan at 20% and 80% of the canvas. -/
def kpTwo : PolyLab := ⟨"kp2", none, none, none, [(20, 20), (80, 80)], ["front"], false⟩

/-- The two-entry dictionary: box A created before box B, both containing
the orphan. -/
def dictTwo : List (String × Entry) :=
  [("A", ⟨0, some rectA, [], false⟩), ("B", ⟨0, some rectB, [], false⟩)]

/-- The hit the scan of `dictTwo` produces, built from the earlier box A
(canvas 10 × 10). -/
def hitTwo : OrphanHit := ⟨[0, 0, 10, 10], 1, [2, 2, 2, 8, 8, 2], 2, ["rect1"]⟩

/-- The output of the run on `[taskGood]`: one image, one 4-point
annotation, one advisory front-order diagnostic. -/
def accGood : RunAcc :=
  ⟨[⟨0, 100, 100, "g.jpg", 1⟩],
   [⟨0, 0, 1, [10, 10, 50, 50], 2500,
     [20, 20, 2, 40, 20, 2, 40, 40, 2, 20, 40, 2], 4, 0, ["rect1"], 3⟩],
   [.frontOrder 3 1 "kp1"]⟩

/-- The output of the run on `[taskOrphan3]`: the three-point orphan is
spatially bound and emitted with `num_keypoints = 3`. -/
def accOrphan3 : RunAcc :=
  ⟨[⟨0, 100, 100, "img.jpg", 5⟩],
   [⟨0, 0, 1, [0, 0, 100, 100], 10000,
     [10, 10, 2, 20, 10, 2, 20, 20, 2], 3, 0, ["rect1"], 7⟩],
   []⟩

/-- The output of the run on `[taskZeroW]`: a duplicated image entry (the
falsy width 0 re-triggers dimension resolution) and one annotation whose
keypoints lie outside its box. -/
def accZeroW : RunAcc :=
  ⟨[⟨0, 0, 50, "img2.jpg", 6⟩, ⟨0, 0, 50, "img2.jpg", 6⟩],
   [⟨0, 0, 1, [0, 0, 200, 50], 10000,
     [100, 100, 2, 200, 100, 2, 200, 200, 2, 100, 200, 2], 4, 0, ["rect1"], 7⟩],
   []⟩

/-- A dimension variable that is either still unresolved or resolved to a
nonzero value (so the falsy-fallback in the conversion helpers is taken
exactly when the variable is unresolved). -/
def dimOK (o : Option ℚ) : Prop := o = none ∨ ∃ w, o = some w ∧ w ≠ 0

/-- Loop invariant tying annotations to image entries: either an image
entry with this task's id has already been appended, or no label has been
accepted yet (dict and orphan queue empty, dimensions unresolved). -/
def taskImageSeen (imageId : Nat) (st : LoopSt) : Prop :=
  (∃ img ∈ st.images, img.id = imageId) ∨
  (st.annDict = [] ∧ st.orphans = [] ∧ st.width = none ∧ st.height = none)

/-! ### Association-list lemmas -/

theorem alGet_alSet_self {β : Type} (m : List (String × β)) (k : String) (v : β) :
    alGet (alSet m k v) k = some v := by
  induction m with
  | nil => simp [alSet, alGet]
  | cons p rest ih =>
      by_cases h : k = p.1
      · simp [alSet, alGet, h]
      · simp [alSet, alGet, h, ih]

theorem alGet_alSet_ne {β : Type} (m : List (String × β)) (k k' : String) (v : β)
    (h : k' ≠ k) : alGet (alSet m k v) k' = alGet m k' := by
  induction m with
  | nil => simp [alSet, alGet, h]
  | cons p rest ih =>
      by_cases hk : k = p.1
      · subst hk
        simp only [alSet, if_pos rfl]
        simp [alGet, h]
      · simp only [alSet, if_neg hk]
        by_cases hk' : k' = p.1
        · simp [alGet, hk']
        · simp [alGet, hk', ih]

theorem alSet_absent {β : Type} (m : List (String × β)) (k : String) (v : β)
    (h : alGet m k = none) : alSet m k v = m ++ [(k, v)] := by
  induction m with
  | nil => simp [alSet]
  | cons p rest ih =>
      by_cases hk : k = p.1
      · simp [alGet, hk] at h
      · simp only [alGet, if_neg hk] at h
        simp [alSet, hk, ih h]

/-! ### Keypoint-flattening lemmas -/

theorem stride3_flatten (w h : ℚ) (pts : List (ℚ × ℚ)) :
    stride3Pairs (flattenPts w h pts) =
      pts.map (fun q => (q.1 * w / 100, q.2 * h / 100)) := by
  induction pts with
  | nil => simp [flattenPts, stride3Pairs]
  | cons q rest ih => simp [flattenPts, stride3Pairs, ih]

theorem flattenPts_length (w h : ℚ) (pts : List (ℚ × ℚ)) :
    (flattenPts w h pts).length = 3 * pts.length := by
  induction pts with
  | nil => simp [flattenPts]
  | cons q rest ih => simp [flattenPts, ih]; ring

/-! ### The cyclic sum as a `Finset` sum -/

theorem foldl_add_range (f : ℕ → ℚ) (n : ℕ) (c : ℚ) :
    (List.range n).foldl (fun a i => a + f i) c = c + ∑ i in Finset.range n, f i := by
  induction n generalizing c with
  | zero => simp
  | succ m ih =>
      rw [List.range_succ, List.foldl_append, ih, Finset.sum_range_succ]
      simp [add_assoc]

theorem shoelaceTotal_eq_sum (pts : List (ℚ × ℚ)) :
    shoelaceTotal pts =
      ∑ i in Finset.range pts.length,
        ((pts.getD ((i + 1) % pts.length) (0, 0)).1 - (pts.getD i (0, 0)).1) *
        ((pts.getD ((i + 1) % pts.length) (0, 0)).2 + (pts.getD i (0, 0)).2) := by
  unfold shoelaceTotal
  rw [foldl_add_range]
  simp

/-! ### Frame lemmas for the label loop -/

theorem rectStep_frame (imageId : Nat) (hasDraft : Bool) (author lsId : Nat)
    (st : LoopSt) (r : RectLab) :
    (rectStep imageId hasDraft author lsId st r).width = st.width ∧
    (rectStep imageId hasDraft author lsId st r).height = st.height ∧
    (rectStep imageId hasDraft author lsId st r).images = st.images ∧
    (rectStep imageId hasDraft author lsId st r).orphans = st.orphans := by
  unfold rectStep
  split <;> simp_all
  split <;> simp

theorem polyStep_frame (imageId : Nat) (hasDraft : Bool) (author lsId : Nat)
    (st : LoopSt) (p : PolyLab) :
    (polyStep imageId hasDraft author lsId st p).width = st.width ∧
    (polyStep imageId hasDraft author lsId st p).height = st.height ∧
    (polyStep imageId hasDraft author lsId st p).images = st.images := by
  unfold polyStep
  split
  · simp
  · split
    · split
      · simp
      · split <;> simp
    · simp

theorem rectStep_images (imageId : Nat) (hasDraft : Bool) (author lsId : Nat)
    (st : LoopSt) (r : RectLab) :
    (rectStep imageId hasDraft author lsId st r).images = st.images :=
  (rectStep_frame imageId hasDraft author lsId st r).2.2.1

theorem polyStep_images (imageId : Nat) (hasDraft : Bool) (author lsId : Nat)
    (st : LoopSt) (p : PolyLab) :
    (polyStep imageId hasDraft author lsId st p).images = st.images :=
  (polyStep_frame imageId hasDraft author lsId st p).2.2

theorem rectStep_width_eq (imageId : Nat) (hasDraft : Bool) (author lsId : Nat)
    (st : LoopSt) (r : RectLab) :
    (rectStep imageId hasDraft author lsId st r).width = st.width :=
  (rectStep_frame imageId hasDraft author lsId st r).1

theorem rectStep_height_eq (imageId : Nat) (hasDraft : Bool) (author lsId : Nat)
    (st : LoopSt) (r : RectLab) :
    (rectStep imageId hasDraft author lsId st r).height = st.height :=
  (rectStep_frame imageId hasDraft author lsId st r).2.1

theorem polyStep_width_eq (imageId : Nat) (hasDraft : Bool) (author lsId : Nat)
    (st : LoopSt) (p : PolyLab) :
    (polyStep imageId hasDraft author lsId st p).width = st.width :=
  (polyStep_frame imageId hasDraft author lsId st p).1

theorem polyStep_height_eq (imageId : Nat) (hasDraft : Bool) (author lsId : Nat)
    (st : LoopSt) (p : PolyLab) :
    (polyStep imageId hasDraft author lsId st p).height = st.height :=
  (polyStep_frame imageId hasDraft author lsId st p).2.1

theorem dimsStep_cases (imageId : Nat) (imageName : String) (lsId : Nat)
    (st : LoopSt) (lab : RawLabel) :
    (∃ ow oh,
      dimsStep imageId imageName lsId st lab =
        ({ st with
             width := some ow
             height := some oh
             images := st.images ++ [⟨imageId, ow, oh, imageName, lsId⟩] }, false) ∧
      (lab.valueDims = some (ow, oh) ∨ lab.topDims = some (ow, oh))) ∨
    dimsStep imageId imageName lsId st lab =
      ({ st with warns := st.warns ++ [.dimsNotFound imageName] }, true) ∨
    (dimsStep imageId imageName lsId st lab = (st, false) ∧
      pyFalsy st.height = false ∧ pyFalsy st.width = false) := by
  unfold dimsStep
  split
  · rename_i hcond
    match hv : lab.valueDims with
    | some (ow, oh) => exact Or.inl ⟨ow, oh, rfl, Or.inl rfl⟩
    | none =>
        match ht : lab.topDims with
        | some (ow, oh) => exact Or.inl ⟨ow, oh, rfl, Or.inr rfl⟩
        | none => exact Or.inr (Or.inl rfl)
  · rename_i hcond
    simp only [Bool.or_eq_true, not_or, Bool.not_eq_true] at hcond
    exact Or.inr (Or.inr ⟨rfl, hcond.1, hcond.2⟩)

theorem processLabel_images (annsEmpty : Bool) (imageId : Nat) (imageName : String)
    (lsId : Nat) (hasDraft : Bool) (author : Nat) (st : LoopSt) (lab : RawLabel) :
    ∃ Δ, (processLabel annsEmpty imageId imageName lsId hasDraft author st lab).images
        = st.images ++ Δ ∧ ∀ img ∈ Δ, img.id = imageId := by
  rcases dimsStep_cases imageId imageName lsId st lab with
    ⟨ow, oh, hds, _⟩ | hds | ⟨hds, _, _⟩ <;>
    simp only [processLabel, hds]
  · match lab with
    | .rect r =>
        by_cases he : annsEmpty <;> simp [he, rectStep_images]
    | .poly p =>
        by_cases he : annsEmpty <;> simp [he, polyStep_images]
    | .other v t =>
        by_cases he : annsEmpty <;> simp [he]
  · exact ⟨[], by simp, by simp⟩
  · match lab with
    | .rect r =>
        by_cases he : annsEmpty <;> simp [he, rectStep_images]
    | .poly p =>
        by_cases he : annsEmpty <;> simp [he, polyStep_images]
    | .other v t =>
        by_cases he : annsEmpty <;> simp [he]

theorem processLabels_images (annsEmpty : Bool) (imageId : Nat) (imageName : String)
    (lsId : Nat) (hasDraft : Bool) (author : Nat) (labs : List RawLabel) (st : LoopSt) :
    ∃ Δ, (processLabels annsEmpty imageId imageName lsId hasDraft author st labs).images
        = st.images ++ Δ ∧ ∀ img ∈ Δ, img.id = imageId := by
  induction labs generalizing st with
  | nil => exact ⟨[], by simp [processLabels], by simp⟩
  | cons lab rest ih =>
      obtain ⟨Δ1, h1, h1'⟩ :=
        processLabel_images annsEmpty imageId imageName lsId hasDraft author st lab
      obtain ⟨Δ2, h2, h2'⟩ :=
        ih (processLabel annsEmpty imageId imageName lsId hasDraft author st lab)
      refine ⟨Δ1 ++ Δ2, ?_, ?_⟩
      · simp [processLabels, h2, h1]
      · intro img hm
        rcases List.mem_append.mp hm with hm | hm
        · exact h1' img hm
        · exact h2' img hm

theorem processLabel_seen (annsEmpty : Bool) (imageId : Nat) (imageName : String)
    (lsId : Nat) (hasDraft : Bool) (author : Nat) (st : LoopSt) (lab : RawLabel)
    (h : taskImageSeen imageId st) :
    taskImageSeen imageId
      (processLabel annsEmpty imageId imageName lsId hasDraft author st lab) := by
  rcases h with ⟨img, hmem, hid⟩ | ⟨hd, ho, hw, hh⟩
  · obtain ⟨Δ, hΔ, _⟩ :=
      processLabel_images annsEmpty imageId imageName lsId hasDraft author st lab
    exact Or.inl ⟨img, by rw [hΔ]; exact List.mem_append_left _ hmem, hid⟩
  · rcases dimsStep_cases imageId imageName lsId st lab with
      ⟨ow, oh, hds, _⟩ | hds | ⟨hds, hfh, hfw⟩
    · refine Or.inl ?_
      simp only [processLabel, hds]
      match lab with
      | .rect r =>
          by_cases he : annsEmpty <;>
            simp [he, rectStep_images] <;>
            exact ⟨⟨imageId, ow, oh, imageName, lsId⟩, by simp, rfl⟩
      | .poly p =>
          by_cases he : annsEmpty <;>
            simp [he, polyStep_images] <;>
            exact ⟨⟨imageId, ow, oh, imageName, lsId⟩, by simp, rfl⟩
      | .other v t =>
          by_cases he : annsEmpty <;>
            simp [he] <;>
            exact ⟨⟨imageId, ow, oh, imageName, lsId⟩, by simp, rfl⟩
    · simp only [processLabel, hds]
      exact Or.inr ⟨hd, ho, hw, hh⟩
    · rw [hw] at hfw
      simp [pyFalsy] at hfw

theorem processLabels_seen (annsEmpty : Bool) (imageId : Nat) (imageName : String)
    (lsId : Nat) (hasDraft : Bool) (author : Nat) (labs : List RawLabel) (st : LoopSt)
    (h : taskImageSeen imageId st) :
    taskImageSeen imageId
      (processLabels annsEmpty imageId imageName lsId hasDraft author st labs) := by
  induction labs generalizing st with
  | nil => simpa [processLabels] using h
  | cons lab rest ih =>
      exact ih _ (processLabel_seen annsEmpty imageId imageName lsId hasDraft author st lab h)

theorem processLabel_wh (annsEmpty : Bool) (imageId : Nat) (imageName : String)
    (lsId : Nat) (hasDraft : Bool) (author : Nat) (st : LoopSt) (lab : RawLabel) :
    (processLabel annsEmpty imageId imageName lsId hasDraft author st lab).width =
      (dimsStep imageId imageName lsId st lab).1.width ∧
    (processLabel annsEmpty imageId imageName lsId hasDraft author st lab).height =
      (dimsStep imageId imageName lsId st lab).1.height := by
  rcases hds : dimsStep imageId imageName lsId st lab with ⟨st1, skip⟩
  simp only [processLabel, hds]
  cases skip
  · by_cases he : annsEmpty
    · simp [he]
    · cases lab with
      | rect r => simp [he, rectStep_width_eq, rectStep_height_eq]
      | poly p => simp [he, polyStep_width_eq, polyStep_height_eq]
      | other v t => simp [he]
  · simp

theorem processLabel_dims (annsEmpty : Bool) (imageId : Nat) (imageName : String)
    (lsId : Nat) (hasDraft : Bool) (author : Nat) (st : LoopSt) (lab : RawLabel)
    (hnz : dimsNZb lab = true) (hw : dimOK st.width) (hh : dimOK st.height) :
    dimOK (processLabel annsEmpty imageId imageName lsId hasDraft author st lab).width ∧
    dimOK (processLabel annsEmpty imageId imageName lsId hasDraft author st lab).height := by
  rw [(processLabel_wh annsEmpty imageId imageName lsId hasDraft author st lab).1,
      (processLabel_wh annsEmpty imageId imageName lsId hasDraft author st lab).2]
  rcases dimsStep_cases imageId imageName lsId st lab with
    ⟨ow, oh, hds, hsrc⟩ | hds | ⟨hds, _, _⟩
  · have hnz' : ow ≠ 0 ∧ oh ≠ 0 := by
      rcases hsrc with hv | hv <;>
        · unfold dimsNZb at hnz
          rw [hv] at hnz
          simp only [Bool.and_eq_true, Bool.not_eq_true', decide_eq_false_iff_not] at hnz
          tauto
    rw [hds]
    exact ⟨Or.inr ⟨ow, rfl, hnz'.1⟩, Or.inr ⟨oh, rfl, hnz'.2⟩⟩
  · rw [hds]
    exact ⟨hw, hh⟩
  · rw [hds]
    exact ⟨hw, hh⟩

theorem processLabels_dims (annsEmpty : Bool) (imageId : Nat) (imageName : String)
    (lsId : Nat) (hasDraft : Bool) (author : Nat) (labs : List RawLabel) (st : LoopSt)
    (hnz : ∀ lab ∈ labs, dimsNZb lab = true)
    (hw : dimOK st.width) (hh : dimOK st.height) :
    dimOK (processLabels annsEmpty imageId imageName lsId hasDraft author st labs).width ∧
    dimOK (processLabels annsEmpty imageId imageName lsId hasDraft author st labs).height := by
  induction labs generalizing st with
  | nil => exact ⟨hw, hh⟩
  | cons lab rest ih =>
      have hstep := processLabel_dims annsEmpty imageId imageName lsId hasDraft author
        st lab (hnz lab (by simp)) hw hh
      exact ih _ (fun l hl => hnz l (by simp [hl])) hstep.1 hstep.2

/-! ### Parent-linked emission pass -/

theorem emitKeypoint_mem (conv : Converter) (width height : Option ℚ)
    (imageId author lsId : Nat) (xmin ymin w h : ℚ) (bboxAnn : RectLab)
    (anns : List OutAnn) (warns : List Warning) (kp : PolyLab)
    (anns' : List OutAnn) (warns' : List Warning)
    (hok : emitKeypoint conv width height imageId author lsId xmin ymin w h
            bboxAnn anns warns kp = .ok (anns', warns')) :
    ∀ a ∈ anns', a ∈ anns ∨
      (a.image_id = imageId ∧ a.num_keypoints = 4 ∧ annContainedB a = true) := by
  unfold emitKeypoint at hok
  split at hok
  · exact absurd hok (by simp)
  · rename_i keypoints num heq
    split at hok
    · simp only [Except.ok.injEq, Prod.mk.injEq] at hok
      intro a ha
      rw [← hok.1] at ha
      exact Or.inl ha
    · rename_i hnum
      by_cases hcont :
          (stride3Pairs keypoints).all (inBox xmin ymin (xmin + w) (ymin + h)) = true
      · simp only [hcont, not_true_eq_false, if_false] at hok
        split at hok
        · exact absurd hok (by simp)
        · split at hok
          · exact absurd hok (by simp)
          · simp only [Except.ok.injEq, Prod.mk.injEq] at hok
            intro a ha
            rw [← hok.1] at ha
            rcases List.mem_append.mp ha with ha | ha
            · exact Or.inl ha
            · right
              have haann := List.mem_singleton.mp ha
              subst haann
              refine ⟨rfl, by simpa using hnum, ?_⟩
              simp only [annContainedB]
              simpa using hcont
      · have hcont' :
            (stride3Pairs keypoints).all (inBox xmin ymin (xmin + w) (ymin + h)) = false :=
          by simpa using hcont
        simp only [hcont', Bool.false_eq_true, not_false_eq_true, if_true,
          Except.ok.injEq, Prod.mk.injEq] at hok
        intro a ha
        rw [← hok.1] at ha
        exact Or.inl ha

theorem emitKeypoints_mem (conv : Converter) (width height : Option ℚ)
    (imageId author lsId : Nat) (xmin ymin w h : ℚ) (bboxAnn : RectLab)
    (anns : List OutAnn) (warns : List Warning) (kps : List PolyLab)
    (anns' : List OutAnn) (warns' : List Warning)
    (hok : emitKeypoints conv width height imageId author lsId xmin ymin w h
            bboxAnn anns warns kps = .ok (anns', warns')) :
    ∀ a ∈ anns', a ∈ anns ∨
      (a.image_id = imageId ∧ a.num_keypoints = 4 ∧ annContainedB a = true) := by
  induction kps generalizing anns warns with
  | nil =>
      simp only [emitKeypoints, Except.ok.injEq, Prod.mk.injEq] at hok
      intro a ha
      rw [← hok.1] at ha
      exact Or.inl ha
  | cons kp rest ih =>
      simp only [emitKeypoints] at hok
      split at hok
      · exact absurd hok (by simp)
      · rename_i res anns1 warns1 heq
        intro a ha
        rcases ih anns1 warns1 hok a ha with hmem | hprop
        · rcases emitKeypoint_mem conv width height imageId author lsId xmin ymin w h
            bboxAnn anns warns kp anns1 warns1 heq a hmem with hmem' | hprop'
          · exact Or.inl hmem'
          · exact Or.inr hprop'
        · exact Or.inr hprop

theorem emitFromDict_mem (conv : Converter) (width height : Option ℚ)
    (imageId author lsId : Nat)
    (anns : List OutAnn) (warns : List Warning) (d : List (String × Entry))
    (anns' : List OutAnn) (warns' : List Warning)
    (hok : emitFromDict conv width height imageId author lsId anns warns d
            = .ok (anns', warns')) :
    ∀ a ∈ anns', a ∈ anns ∨
      (a.image_id = imageId ∧ a.num_keypoints = 4 ∧ annContainedB a = true) := by
  induction d generalizing anns warns with
  | nil =>
      simp only [emitFromDict, Except.ok.injEq, Prod.mk.injEq] at hok
      intro a ha
      rw [← hok.1] at ha
      exact Or.inl ha
  | cons p rest ih =>
      rcases p with ⟨k, e⟩
      simp only [emitFromDict] at hok
      split at hok
      · exact ih anns warns hok
      · rename_i r hr
        split at hok
        · exact absurd hok (by simp)
        · rename_i bbox hbb
          split at hok
          · rename_i xmin ymin bw bh
            split at hok
            · exact absurd hok (by simp)
            · rename_i res anns1 warns1 heq
              intro a ha
              rcases ih anns1 warns1 hok a ha with hmem | hprop
              · rcases emitKeypoints_mem conv width height imageId author lsId
                  xmin ymin bw bh r anns warns e.keypoints anns1 warns1 heq a hmem with
                  hmem' | hprop'
                · exact Or.inl hmem'
                · exact Or.inr hprop'
              · exact Or.inr hprop
          · exact absurd hok (by simp)

/-! ### Orphan resolution pass -/

theorem orphanScan_hit (conv : Converter) (width height : Option ℚ)
    (absPts : List (ℚ × ℚ)) (kp : PolyLab) (d : List (String × Entry))
    (hit : OrphanHit)
    (hok : orphanScan conv width height absPts kp d = .ok (some hit)) :
    ∃ xmin ymin bw bh, hit.bbox = [xmin, ymin, bw, bh] ∧
      absPts.all (inBox xmin ymin (xmin + bw) (ymin + bh)) = true ∧
      convertSingleKeypoint kp width height = .ok (hit.keypoints, hit.num_keypoints) := by
  induction d with
  | nil => simp [orphanScan] at hok
  | cons p rest ih =>
      rcases p with ⟨k, e⟩
      simp only [orphanScan] at hok
      split at hok
      · exact ih hok
      · rename_i r hr
        split at hok
        · exact absurd hok (by simp)
        · rename_i bbox hbb
          split at hok
          · rename_i xmin ymin bw bh
            split at hok
            · rename_i hcont
              split at hok
              · exact absurd hok (by simp)
              · split at hok
                · exact absurd hok (by simp)
                · split at hok
                  · exact absurd hok (by simp)
                  · rename_i ks num hck
                    simp only [Except.ok.injEq, Option.some.injEq] at hok
                    subst hok
                    exact ⟨xmin, ymin, bw, bh, rfl, hcont, hck⟩
            · exact ih hok
          · exact absurd hok (by simp)

theorem stride3_of_convert (width height : Option ℚ) (kp : PolyLab)
    (absPts : List (ℚ × ℚ)) (ks : List ℚ) (num : Nat)
    (hwOK : dimOK width) (hhOK : dimOK height)
    (habs : absPointsOf kp.points width height = .ok absPts)
    (hck : convertSingleKeypoint kp width height = .ok (ks, num)) :
    stride3Pairs ks = absPts := by
  rcases hwOK with hw | ⟨w0, hw, hw0⟩
  · subst hw
    match hp : kp.points with
    | [] =>
        rw [hp] at habs
        simp only [absPointsOf, Except.ok.injEq] at habs
        unfold convertSingleKeypoint at hck
        simp only [pyFalsy, Bool.true_or, if_true] at hck
        split at hck
        · exact absurd hck (by simp)
        · rename_i w1 h1
          simp only [hp, Except.ok.injEq, Prod.mk.injEq] at hck
          rw [← hck.1, ← habs]
          simp [flattenPts, stride3Pairs]
    | q :: pts' =>
        rw [hp] at habs
        simp only [absPointsOf] at habs
        exact absurd habs (by simp)
  · subst hw
    rcases hhOK with hh | ⟨h0, hh, hh0⟩
    · subst hh
      match hp : kp.points with
      | [] =>
          rw [hp] at habs
          simp only [absPointsOf, Except.ok.injEq] at habs
          unfold convertSingleKeypoint at hck
          simp only [pyFalsy, Bool.or_true, if_true] at hck
          split at hck
          · exact absurd hck (by simp)
          · rename_i w1 h1
            simp only [hp, Except.ok.injEq, Prod.mk.injEq] at hck
            rw [← hck.1, ← habs]
            simp [flattenPts, stride3Pairs]
      | q :: pts' =>
          rw [hp] at habs
          simp only [absPointsOf] at habs
          exact absurd habs (by simp)
    · subst hh
      unfold convertSingleKeypoint at hck
      simp only [pyFalsy, decide_eq_true_eq, hw0, hh0, decide_eq_false_iff_not,
        Bool.or_self, if_false] at hck
      simp only [Except.ok.injEq, Prod.mk.injEq] at hck
      have habs' : absPts = kp.points.map fun pt => (pt.1 * w0 / 100, pt.2 * h0 / 100) := by
        match hp : kp.points with
        | [] =>
            rw [hp] at habs
            simp only [absPointsOf, Except.ok.injEq] at habs
            simp [← habs]
        | q :: pts' =>
            rw [hp] at habs
            simp only [absPointsOf, Except.ok.injEq] at habs
            simp [← habs, hp]
      rw [← hck.1, habs', stride3_flatten]

theorem processOrphans_memA (conv : Converter) (width height : Option ℚ)
    (imageId author lsId : Nat) (annDict : List (String × Entry))
    (anns : List OutAnn) (warns : List Warning) (os : List Orphan)
    (anns' : List OutAnn) (warns' : List Warning)
    (hok : processOrphans conv width height imageId author lsId annDict
            anns warns os = .ok (anns', warns')) :
    ∀ a ∈ anns', a ∈ anns ∨ a.image_id = imageId := by
  induction os generalizing anns warns with
  | nil =>
      simp only [processOrphans, Except.ok.injEq, Prod.mk.injEq] at hok
      intro a ha
      rw [← hok.1] at ha
      exact Or.inl ha
  | cons o rest ih =>
      simp only [processOrphans] at hok
      split at hok
      · exact absurd hok (by simp)
      · rename_i absPts habs
        split at hok
        · exact absurd hok (by simp)
        · rename_i hit hscan
          intro a ha
          rcases ih _ _ hok a ha with hmem | hprop
          · rcases List.mem_append.mp hmem with hmem' | hmem'
            · exact Or.inl hmem'
            · right
              have := List.mem_singleton.mp hmem'
              subst this
              rfl
          · exact Or.inr hprop
        · rename_i hscan
          intro a ha
          rcases ih _ _ hok a ha with hmem | hprop
          · exact Or.inl hmem
          · exact Or.inr hprop

theorem processOrphans_memB (conv : Converter) (width height : Option ℚ)
    (imageId author lsId : Nat) (annDict : List (String × Entry))
    (anns : List OutAnn) (warns : List Warning) (os : List Orphan)
    (anns' : List OutAnn) (warns' : List Warning)
    (hwOK : dimOK width) (hhOK : dimOK height)
    (hok : processOrphans conv width height imageId author lsId annDict
            anns warns os = .ok (anns', warns')) :
    ∀ a ∈ anns', a ∈ anns ∨ (a.image_id = imageId ∧ annContainedB a = true) := by
  induction os generalizing anns warns with
  | nil =>
      simp only [processOrphans, Except.ok.injEq, Prod.mk.injEq] at hok
      intro a ha
      rw [← hok.1] at ha
      exact Or.inl ha
  | cons o rest ih =>
      simp only [processOrphans] at hok
      split at hok
      · exact absurd hok (by simp)
      · rename_i absPts habs
        split at hok
        · exact absurd hok (by simp)
        · rename_i hit hscan
          intro a ha
          rcases ih _ _ hok a ha with hmem | hprop
          · rcases List.mem_append.mp hmem with hmem' | hmem'
            · exact Or.inl hmem'
            · right
              have haeq := List.mem_singleton.mp hmem'
              subst haeq
              refine ⟨rfl, ?_⟩
              obtain ⟨xmin, ymin, bw, bh, hbb, hcont, hck⟩ :=
                orphanScan_hit conv width height absPts o.label annDict hit hscan
              have hstr :=
                stride3_of_convert width height o.label absPts hit.keypoints
                  hit.num_keypoints hwOK hhOK habs hck
              simp only [annContainedB, hbb, hstr]
              exact hcont
          · exact Or.inr hprop
        · rename_i hscan
          intro a ha
          rcases ih _ _ hok a ha with hmem | hprop
          · exact Or.inl hmem
          · exact Or.inr hprop

/-! ### Task-level lemmas -/

theorem processTask_images (conv : Converter) (acc : RunAcc) (t : Task) (acc' : RunAcc)
    (hok : processTask conv acc t = .ok acc') :
    ∃ Δ, acc'.images = acc.images ++ Δ := by
  simp only [processTask] at hok
  split at hok
  · exact absurd hok (by simp)
  · rename_i ann0 restAnns hlist
    split at hok
    · exact absurd hok (by simp)
    · rename_i res1 anns1 warns1 hemit
      split at hok
      · exact absurd hok (by simp)
      · rename_i res2 anns2 warns2 horph
        simp only [Except.ok.injEq] at hok
        subst hok
        obtain ⟨Δ, hΔ, _⟩ := processLabels_images t.annotationList.isEmpty
          acc.images.length t.image t.id (! t.drafts.isEmpty) ann0.completed_by
          ann0.result ⟨none, none, acc.images, [], [], acc.warns⟩
        exact ⟨Δ, hΔ⟩

theorem processTask_imageRef (conv : Converter) (acc : RunAcc) (t : Task) (acc' : RunAcc)
    (hok : processTask conv acc t = .ok acc') :
    ∀ a ∈ acc'.anns, a ∈ acc.anns ∨ ∃ img ∈ acc'.images, a.image_id = img.id := by
  simp only [processTask] at hok
  split at hok
  · exact absurd hok (by simp)
  · rename_i ann0 restAnns hlist
    split at hok
    · exact absurd hok (by simp)
    · rename_i res1 anns1 warns1 hemit
      split at hok
      · exact absurd hok (by simp)
      · rename_i res2 anns2 warns2 horph
        simp only [Except.ok.injEq] at hok
        subst hok
        have hseen := processLabels_seen t.annotationList.isEmpty acc.images.length
          t.image t.id (! t.drafts.isEmpty) ann0.completed_by ann0.result
          ⟨none, none, acc.images, [], [], acc.warns⟩ (Or.inr ⟨rfl, rfl, rfl, rfl⟩)
        rcases hseen with ⟨img, himg, hid⟩ | ⟨hdict, horR, _, _⟩
        · intro a ha
          rcases processOrphans_memA conv _ _ acc.images.length ann0.completed_by t.id
              _ anns1 warns1 _ anns2 warns2 horph a ha with ha1 | haid
          · rcases emitFromDict_mem conv _ _ acc.images.length ann0.completed_by t.id
                acc.anns _ _ anns1 warns1 hemit a ha1 with ha0 | hprop
            · exact Or.inl ha0
            · exact Or.inr ⟨img, himg, by rw [hprop.1, hid]⟩
          · exact Or.inr ⟨img, himg, by rw [haid, hid]⟩
        · rw [hdict] at hemit
          simp only [emitFromDict, Except.ok.injEq, Prod.mk.injEq] at hemit
          rw [horR] at horph
          simp only [processOrphans, Except.ok.injEq, Prod.mk.injEq] at horph
          intro a ha
          rw [← horph.1, ← hemit.1] at ha
          exact Or.inl ha

theorem processTask_contained (conv : Converter) (acc : RunAcc) (t : Task) (acc' : RunAcc)
    (hok : processTask conv acc t = .ok acc')
    (hnz : ∀ ta ∈ t.annotationList, ∀ lab ∈ ta.result, dimsNZb lab = true) :
    ∀ a ∈ acc'.anns, a ∈ acc.anns ∨ annContainedB a = true := by
  simp only [processTask] at hok
  split at hok
  · exact absurd hok (by simp)
  · rename_i ann0 restAnns hlist
    split at hok
    · exact absurd hok (by simp)
    · rename_i res1 anns1 warns1 hemit
      split at hok
      · exact absurd hok (by simp)
      · rename_i res2 anns2 warns2 horph
        simp only [Except.ok.injEq] at hok
        subst hok
        have hnz0 : ∀ lab ∈ ann0.result, dimsNZb lab = true :=
          hnz ann0 (by rw [hlist]; simp)
        have hdims := processLabels_dims t.annotationList.isEmpty acc.images.length
          t.image t.id (! t.drafts.isEmpty) ann0.completed_by ann0.result
          ⟨none, none, acc.images, [], [], acc.warns⟩ hnz0 (Or.inl rfl) (Or.inl rfl)
        intro a ha
        rcases processOrphans_memB conv _ _ acc.images.length ann0.completed_by t.id
            _ anns1 warns1 _ anns2 warns2 hdims.1 hdims.2 horph a ha with ha1 | hprop
        · rcases emitFromDict_mem conv _ _ acc.images.length ann0.completed_by t.id
              acc.anns _ _ anns1 warns1 hemit a ha1 with ha0 | hprop'
          · exact Or.inl ha0
          · exact Or.inr hprop'.2.2
        · exact Or.inr hprop.2

/-! ### Run-level lemmas -/

theorem convertTasks_imageRef (conv : Converter) (tasks : List Task)
    (acc acc' : RunAcc) (hok : convertTasks conv acc tasks = .ok acc')
    (hinv : ∀ a ∈ acc.anns, ∃ img ∈ acc.images, a.image_id = img.id) :
    ∀ a ∈ acc'.anns, ∃ img ∈ acc'.images, a.image_id = img.id := by
  induction tasks generalizing acc with
  | nil =>
      simp only [convertTasks, Except.ok.injEq] at hok
      subst hok
      exact hinv
  | cons t rest ih =>
      simp only [convertTasks] at hok
      split at hok
      · exact absurd hok (by simp)
      · rename_i acc1 hstep
        refine ih acc1 hok ?_
        intro a ha
        rcases processTask_imageRef conv acc t acc1 hstep a ha with hmem | hex
        · obtain ⟨img, himg, hid⟩ := hinv a hmem
          obtain ⟨Δ, hΔ⟩ := processTask_images conv acc t acc1 hstep
          exact ⟨img, by rw [hΔ]; exact List.mem_append_left _ himg, hid⟩
        · exact hex

theorem convertTasks_contained (conv : Converter) (tasks : List Task)
    (acc acc' : RunAcc) (hok : convertTasks conv acc tasks = .ok acc')
    (hnz : ∀ t ∈ tasks, ∀ ta ∈ t.annotationList, ∀ lab ∈ ta.result, dimsNZb lab = true)
    (hinv : ∀ a ∈ acc.anns, annContainedB a = true) :
    ∀ a ∈ acc'.anns, annContainedB a = true := by
  induction tasks generalizing acc with
  | nil =>
      simp only [convertTasks, Except.ok.injEq] at hok
      subst hok
      exact hinv
  | cons t rest ih =>
      simp only [convertTasks] at hok
      split at hok
      · exact absurd hok (by simp)
      · rename_i acc1 hstep
        refine ih acc1 hok (fun t' ht' => hnz t' (by simp [ht'])) ?_
        intro a ha
        rcases processTask_contained conv acc t acc1 hstep
            (hnz t (by simp)) a ha with hmem | hc
        · exact hinv a hmem
        · exact hc

/-! ### Concrete run evaluations -/

theorem convertRun_good_eval : convertRun convFix [taskGood] = .ok accGood := by
  norm_num [convertRun, convertTasks, processTask, processLabels, processLabel,
    dimsStep, rectStep, polyStep, emitFromDict, emitKeypoints, emitKeypoint,
    processOrphans, orphanScan, absPointsOf, convertBbox, convertSingleKeypoint,
    flattenPts, stride3Pairs, inBox, checkPolygonOrder, shoelaceTotal,
    headName, lookupId, alGet, alSet, pyFalsy, convFix, taskGood, rectGood,
    polyGood, mkConverter, buildCatsFrom, buildNameToId, accGood,
    RawLabel.valueDims, RawLabel.topDims, List.foldl, List.all, List.getD, List.map,
    (by decide : ¬("B1" : String) = ""), (by decide : ¬("side" : String) = "front"),
    (by decide : ¬("back" : String) = "front"), (by decide : ¬("back" : String) = "side")]

theorem convertRun_orphan3_eval : convertRun convFix [taskOrphan3] = .ok accOrphan3 := by
  norm_num [convertRun, convertTasks, processTask, processLabels, processLabel,
    dimsStep, rectStep, polyStep, emitFromDict, emitKeypoints, emitKeypoint,
    processOrphans, orphanScan, absPointsOf, convertBbox, convertSingleKeypoint,
    flattenPts, stride3Pairs, inBox, checkPolygonOrder, shoelaceTotal,
    headName, lookupId, alGet, alSet, pyFalsy, convFix, taskOrphan3, rectFix,
    polyOrphan3, mkConverter, buildCatsFrom, buildNameToId, accOrphan3,
    RawLabel.valueDims, RawLabel.topDims, List.foldl, List.all, List.getD, List.map,
    (by decide : ¬("side" : String) = "front"),
    (by decide : ¬("back" : String) = "front"), (by decide : ¬("back" : String) = "side")]

theorem convertRun_zeroW_eval : convertRun convFix [taskZeroW] = .ok accZeroW := by
  norm_num [convertRun, convertTasks, processTask, processLabels, processLabel,
    dimsStep, rectStep, polyStep, emitFromDict, emitKeypoints, emitKeypoint,
    processOrphans, orphanScan, absPointsOf, convertBbox, convertSingleKeypoint,
    flattenPts, stride3Pairs, inBox, checkPolygonOrder, shoelaceTotal,
    headName, lookupId, alGet, alSet, pyFalsy, convFix, taskZeroW, rectZeroW,
    polyZeroW, mkConverter, buildCatsFrom, buildNameToId, accZeroW,
    RawLabel.valueDims, RawLabel.topDims, List.foldl, List.all, List.getD, List.map,
    (by decide : ¬("side" : String) = "front"),
    (by decide : ¬("back" : String) = "front"), (by decide : ¬("back" : String) = "side")]

/-! ### Claim theorems -/

/-- Claim C1, counterexample: an orphan keypoint set with three points,
fully inside a box, is bound by spatial resolution and emitted with
`num_keypoints = 3` — so a keypoint set whose count is not 4 does appear
in the output annotations. -/
theorem c1_counterexample :
    (runAnns (convertRun convFix [taskOrphan3])).map
        (fun l => l.map fun a => a.num_keypoints) = some [3] := by
  rw [convertRun_orphan3_eval]
  rfl

/-- Claim C1 as amended: the exactly-4-points check applies only to
parent-linked keypoint sets — every annotation the parent-linked emission
pass adds has `num_keypoints = 4`, and a parent-linked set with a
different count is skipped with a count diagnostic (the orphan pass
performs no such check, as the counterexample shows). -/
theorem c1_arity_amended (conv : Converter) (width height : Option ℚ)
    (imageId author lsId : Nat) (anns : List OutAnn) (warns : List Warning)
    (d : List (String × Entry)) (anns' : List OutAnn) (warns' : List Warning)
    (xmin ymin w h : ℚ) (r : RectLab) (kp : PolyLab) (ks : List ℚ) (num : Nat) :
    (emitFromDict conv width height imageId author lsId anns warns d
        = .ok (anns', warns') →
      ∀ a ∈ anns', a ∈ anns ∨ a.num_keypoints = 4) ∧
    (convertSingleKeypoint kp width height = .ok (ks, num) → num ≠ 4 →
      emitKeypoint conv width height imageId author lsId xmin ymin w h r
          anns warns kp =
        .ok (anns, warns ++ [.kptCountNot4 num author lsId kp.id])) := by
  constructor
  · intro hok a ha
    rcases emitFromDict_mem conv width height imageId author lsId anns warns d
        anns' warns' hok a ha with hm | hp
    · exact Or.inl hm
    · exact Or.inr hp.2.1
  · intro hck hnum
    unfold emitKeypoint
    rw [hck]
    simp [hnum]

/-- Witness for the amended C1: a concrete 3-point record handed to the
parent-linked emission step is skipped with the count diagnostic. -/
theorem c1_arity_witness :
    emitKeypoint convFix (some 100) (some 100) 0 7 5 0 0 100 100 rectFix
        [] [] polyOrphan3 =
      .ok ([], [.kptCountNot4 3 7 5 "kp1"]) := by
  have h := (c1_arity_amended convFix (some 100) (some 100) 0 7 5 [] [] [] [] []
      0 0 100 100 rectFix polyOrphan3 (flattenPts 100 100 polyOrphan3.points) 3).2
  exact h (by norm_num [convertSingleKeypoint, pyFalsy, polyOrphan3]) (by decide)

/-- Claim C2, counterexample: the spec's first winding example is wrong on
the code — the points (0,0), (1,0), (1,1), (0,1) give cyclic sum −2, the
code takes a negative sum as clockwise, so with `expected_clockwise =
True` the check returns `True`, not `False`. -/
theorem c2_counterexample :
    checkPolygonOrder [((0 : ℚ), (0 : ℚ)), (1, 0), (1, 1), (0, 1)] true = true := by
  norm_num [checkPolygonOrder, shoelaceTotal, List.foldl, List.getD,
    (show List.range 4 = [0, 1, 2, 3] from rfl)]

/-- Claim C2 as amended: the check computes the cyclic sum
Σ (x[i+1]−x[i]) · (y[i+1]+y[i]) and compares `sum < 0` (its clockwise
convention, which in image coordinates corresponds to the visually
clockwise order) with the expectation; the two example point lists
therefore yield `true` and `false` for `expectedClockwise = true` — the
opposite of the claim's outcomes — and fewer than 3 points give `false`. -/
theorem c2_winding_amended :
    (∀ (pts : List (ℚ × ℚ)) (ec : Bool),
      checkPolygonOrder pts ec = true ↔
        (3 ≤ pts.length ∧ (shoelaceTotal pts < 0 ↔ ec = true))) ∧
    (∀ pts : List (ℚ × ℚ), shoelaceTotal pts =
      ∑ i in Finset.range pts.length,
        ((pts.getD ((i + 1) % pts.length) (0, 0)).1 - (pts.getD i (0, 0)).1) *
        ((pts.getD ((i + 1) % pts.length) (0, 0)).2 + (pts.getD i (0, 0)).2)) ∧
    checkPolygonOrder [((0 : ℚ), (0 : ℚ)), (1, 0), (1, 1), (0, 1)] true = true ∧
    checkPolygonOrder [((0 : ℚ), (0 : ℚ)), (0, 1), (1, 1), (1, 0)] true = false ∧
    checkPolygonOrder [((0 : ℚ), (0 : ℚ)), (1, 0), (1, 1), (0, 1)] false = false ∧
    checkPolygonOrder [((0 : ℚ), (0 : ℚ)), (0, 1), (1, 1), (1, 0)] false = true ∧
    checkPolygonOrder [((0 : ℚ), (0 : ℚ)), (1, 1)] true = false := by
  have hr4 : List.range 4 = [0, 1, 2, 3] := rfl
  refine ⟨?_, shoelaceTotal_eq_sum,
    by norm_num [checkPolygonOrder, shoelaceTotal, List.foldl, List.getD, hr4],
    by norm_num [checkPolygonOrder, shoelaceTotal, List.foldl, List.getD, hr4],
    by norm_num [checkPolygonOrder, shoelaceTotal, List.foldl, List.getD, hr4],
    by norm_num [checkPolygonOrder, shoelaceTotal, List.foldl, List.getD, hr4],
    by norm_num [checkPolygonOrder]⟩
  intro pts ec
  unfold checkPolygonOrder
  split
  · rename_i hlen
    constructor
    · intro hc
      exact absurd hc (by simp)
    · rintro ⟨h3, _⟩
      omega
  · rename_i hlen
    have h3 : 3 ≤ pts.length := by omega
    cases ec <;> simp [h3]

/-- Claim C3: a task with an empty `annotations` list is NOT skipped —
`item['annotations'][0]` raises `IndexError` before the (unreachable)
emptiness check, aborting the whole run, even when a previous task
converted fine.  The claim describes the intent of the dead guard at
lines 118–121; the code as written fails instead. -/
theorem c3_empty_annotations_abort :
    convertRun convFix [taskGood, taskNoAnns] = .error .indexError := by
  norm_num [convertRun, convertTasks, processTask, processLabels, processLabel,
    dimsStep, rectStep, polyStep, emitFromDict, emitKeypoints, emitKeypoint,
    processOrphans, orphanScan, absPointsOf, convertBbox, convertSingleKeypoint,
    flattenPts, stride3Pairs, inBox, checkPolygonOrder, shoelaceTotal,
    headName, lookupId, alGet, alSet, pyFalsy, convFix, taskGood, rectGood,
    polyGood, taskNoAnns, mkConverter, buildCatsFrom, buildNameToId,
    RawLabel.valueDims, RawLabel.topDims, List.foldl, List.all, List.getD, List.map,
    (by decide : ¬("B1" : String) = ""), (by decide : ¬("side" : String) = "front"),
    (by decide : ¬("back" : String) = "front"), (by decide : ¬("back" : String) = "side")]

/-- Claim C4, counterexample: on a task whose canvas width resolves to
the falsy value 0, the orphan containment check converts the points with
the resolved dimensions but emission converts them with the label's own
fallback dimensions, so an annotation is emitted whose keypoints lie
outside its box. -/
theorem c4_counterexample :
    (runAnns (convertRun convFix [taskZeroW])).map
        (fun l => l.map annContainedB) = some [false] := by
  rw [convertRun_zeroW_eval]
  norm_num [runAnns, accZeroW, annContainedB, stride3Pairs, inBox, List.all, List.map]

/-- Claim C4 as amended: provided every `original_width`/`original_height`
value carried by the export's labels is nonzero, every emitted
annotation's keypoints lie within the inclusive pixel bounds of its box
(parent-linked annotations satisfy this even without the proviso, since
the checked points are the emitted points there). -/
theorem c4_containment_amended (conv : Converter) (tasks : List Task) (acc : RunAcc)
    (hok : convertRun conv tasks = .ok acc)
    (hnz : ∀ t ∈ tasks, ∀ ta ∈ t.annotationList, ∀ lab ∈ ta.result,
      dimsNZb lab = true) :
    ∀ a ∈ acc.anns, annContainedB a = true :=
  convertTasks_contained conv tasks ⟨[], [], []⟩ acc hok hnz (by simp)

/-- Witness for the amended C4 at a concrete well-formed run. -/
theorem c4_containment_witness :
    convertRun convFix [taskGood] = .ok accGood ∧
    ∀ a ∈ accGood.anns, annContainedB a = true :=
  ⟨convertRun_good_eval,
   c4_containment_amended convFix [taskGood] accGood convertRun_good_eval
     (by norm_num [taskGood, rectGood, polyGood, dimsNZb,
        RawLabel.valueDims, RawLabel.topDims])⟩

/-- Claim C7: percentage→pixel conversion maps each coordinate `p` over
dimension `d` to `p * d / 100`, independently for the box's four values
and each keypoint pair, and for nonzero dimensions dividing back by the
dimension and multiplying by 100 reproduces the original percentages
exactly over ℚ. -/
theorem c7_percent_pixel (r : RectLab) (kp : PolyLab) (w h : ℚ)
    (hw : w ≠ 0) (hh : h ≠ 0) :
    convertBbox r (some w) (some h) =
      .ok [r.x * w / 100, r.y * h / 100, r.width * w / 100, r.height * h / 100] ∧
    convertSingleKeypoint kp (some w) (some h) =
      .ok (flattenPts w h kp.points, kp.points.length) ∧
    stride3Pairs (flattenPts w h kp.points) =
      kp.points.map (fun q => (q.1 * w / 100, q.2 * h / 100)) ∧
    r.x * w / 100 / w * 100 = r.x ∧
    r.y * h / 100 / h * 100 = r.y ∧
    r.width * w / 100 / w * 100 = r.width ∧
    r.height * h / 100 / h * 100 = r.height ∧
    ∀ q ∈ kp.points, q.1 * w / 100 / w * 100 = q.1 ∧ q.2 * h / 100 / h * 100 = q.2 := by
  have hfw : pyFalsy (some w) = false := by simp [pyFalsy, hw]
  have hfh : pyFalsy (some h) = false := by simp [pyFalsy, hh]
  refine ⟨?_, ?_, stride3_flatten w h kp.points, ?_, ?_, ?_, ?_, ?_⟩
  · unfold convertBbox
    rw [hfw, hfh]
    simp
  · unfold convertSingleKeypoint
    rw [hfw, hfh]
    simp
  · field_simp
    ring
  · field_simp
    ring
  · field_simp
    ring
  · field_simp
    ring
  · intro q hq
    refine ⟨?_, ?_⟩ <;> rw [div_mul_eq_mul_div, div_mul_eq_mul_div] <;> field_simp

/-- Witness for C7 at concrete nonzero dimensions. -/
theorem c7_percent_pixel_witness :
    ((2 : ℚ) ≠ 0) ∧ ((4 : ℚ) ≠ 0) ∧
    convertBbox rectGood (some 2) (some 4) =
      .ok [rectGood.x * 2 / 100, rectGood.y * 4 / 100,
           rectGood.width * 2 / 100, rectGood.height * 4 / 100] :=
  ⟨by norm_num, by norm_num,
   (c7_percent_pixel rectGood polyGood 2 4 (by norm_num) (by norm_num)).1⟩

/-- Claim C10: every emitted annotation's `image_id` is the id of an
image entry emitted in the same run — the image entry is appended when a
task's dimensions first resolve and no label is processed before that. -/
theorem c10_image_reference (conv : Converter) (tasks : List Task) (acc : RunAcc)
    (hok : convertRun conv tasks = .ok acc) :
    ∀ a ∈ acc.anns, ∃ img ∈ acc.images, a.image_id = img.id :=
  convertTasks_imageRef conv tasks ⟨[], [], []⟩ acc hok (by simp)

/-- Witness for C10 at a concrete well-formed run. -/
theorem c10_image_reference_witness :
    convertRun convFix [taskGood] = .ok accGood ∧
    ∀ a ∈ accGood.anns, ∃ img ∈ accGood.images, a.image_id = img.id :=
  ⟨convertRun_good_eval,
   c10_image_reference convFix [taskGood] accGood convertRun_good_eval⟩

/-- Claim C5: a boxless placeholder entry is inert — both the
parent-linked emission pass and the orphan resolver's dictionary scan
behave exactly as if every entry whose box is absent were removed from
the dictionary, so such an entry can neither contribute an output
annotation nor serve as an orphan candidate. -/
theorem c5_boxless_inert (conv : Converter) (width height : Option ℚ)
    (imageId author lsId : Nat) (anns : List OutAnn) (warns : List Warning)
    (absPts : List (ℚ × ℚ)) (kp : PolyLab) (d : List (String × Entry)) :
    emitFromDict conv width height imageId author lsId anns warns d =
      emitFromDict conv width height imageId author lsId anns warns
        (d.filter fun p => p.2.bbox.isSome) ∧
    orphanScan conv width height absPts kp d =
      orphanScan conv width height absPts kp
        (d.filter fun p => p.2.bbox.isSome) := by
  constructor
  · induction d generalizing anns warns with
    | nil => rfl
    | cons p rest ih =>
        rcases p with ⟨k, e⟩
        rcases he : e.bbox with _ | r
        · rw [List.filter_cons]
          simp only [he, Option.isSome_none, Bool.false_eq_true, if_false]
          simp only [emitFromDict, he]
          exact ih anns warns
        · rw [List.filter_cons]
          simp only [he, Option.isSome_some, if_true]
          simp only [emitFromDict, he]
          split
          · rfl
          · split
            · split
              · rfl
              · rename_i pr anns1 warns1 heq
                exact ih anns1 warns1
            · rfl
  · induction d with
    | nil => rfl
    | cons p rest ih =>
        rcases p with ⟨k, e⟩
        rcases he : e.bbox with _ | r
        · rw [List.filter_cons]
          simp only [he, Option.isSome_none, Bool.false_eq_true, if_false]
          simp only [orphanScan, he]
          exact ih
        · rw [List.filter_cons]
          simp only [he, Option.isSome_some, if_true]
          simp only [orphanScan, he]
          split
          · rfl
          · split
            · split
              · rfl
              · exact ih
            · rfl

/-- Claim C9: processing a BoxLabel whose id already keys an entry
overwrites that entry's box and draft flag in place — its accumulated
keypoint sequence and all other keys are untouched; a new id appends a
fresh entry holding the box and an empty keypoint sequence. -/
theorem c9_box_overwrite (imageId : Nat) (hasDraft : Bool) (author lsId : Nat)
    (st : LoopSt) (r : RectLab) (hkey : r.hasPointsKey = false) :
    (∀ e, alGet st.annDict r.id = some e →
      (rectStep imageId hasDraft author lsId st r).annDict =
        alSet st.annDict r.id ⟨e.image_id, some r, e.keypoints, hasDraft⟩ ∧
      alGet (rectStep imageId hasDraft author lsId st r).annDict r.id =
        some ⟨e.image_id, some r, e.keypoints, hasDraft⟩ ∧
      ∀ k, k ≠ r.id →
        alGet (rectStep imageId hasDraft author lsId st r).annDict k =
          alGet st.annDict k) ∧
    (alGet st.annDict r.id = none →
      (rectStep imageId hasDraft author lsId st r).annDict =
        st.annDict ++ [(r.id, ⟨imageId, some r, [], hasDraft⟩)] ∧
      alGet (rectStep imageId hasDraft author lsId st r).annDict r.id =
        some ⟨imageId, some r, [], hasDraft⟩ ∧
      ∀ k, k ≠ r.id →
        alGet (rectStep imageId hasDraft author lsId st r).annDict k =
          alGet st.annDict k) := by
  constructor
  · intro e he
    have hstep : (rectStep imageId hasDraft author lsId st r).annDict =
        alSet st.annDict r.id ⟨e.image_id, some r, e.keypoints, hasDraft⟩ := by
      unfold rectStep
      rw [hkey]
      simp [he]
    refine ⟨hstep, ?_, ?_⟩
    · rw [hstep]
      exact alGet_alSet_self st.annDict r.id _
    · intro k hk
      rw [hstep]
      exact alGet_alSet_ne st.annDict r.id k _ hk
  · intro he
    have hstep : (rectStep imageId hasDraft author lsId st r).annDict =
        alSet st.annDict r.id ⟨imageId, some r, [], hasDraft⟩ := by
      unfold rectStep
      rw [hkey]
      simp [he]
    refine ⟨?_, ?_, ?_⟩
    · rw [hstep]
      exact alSet_absent st.annDict r.id _ he
    · rw [hstep]
      exact alGet_alSet_self st.annDict r.id _
    · intro k hk
      rw [hstep]
      exact alGet_alSet_ne st.annDict r.id k _ hk

/-- Witness for C9: overwriting a concrete placeholder entry keeps its
keypoint record and replaces its box. -/
theorem c9_box_overwrite_witness :
    (rectStep 0 true 3 1 ⟨none, none, [],
        [("B1", ⟨0, none, [polyGood], false⟩)], [], []⟩ rectGood).annDict =
      alSet [("B1", ⟨0, none, [polyGood], false⟩)] "B1"
        ⟨0, some rectGood, [polyGood], true⟩ ∧
    alGet (rectStep 0 true 3 1 ⟨none, none, [],
        [("B1", ⟨0, none, [polyGood], false⟩)], [], []⟩ rectGood).annDict "B1" =
      some ⟨0, some rectGood, [polyGood], true⟩ ∧
    ∀ k, k ≠ "B1" →
      alGet (rectStep 0 true 3 1 ⟨none, none, [],
          [("B1", ⟨0, none, [polyGood], false⟩)], [], []⟩ rectGood).annDict k =
        alGet [("B1", (⟨0, none, [polyGood], false⟩ : Entry))] k := by
  have h := (c9_box_overwrite 0 true 3 1
      ⟨none, none, [], [("B1", ⟨0, none, [polyGood], false⟩)], [], []⟩
      rectGood rfl).1 ⟨0, none, [polyGood], false⟩ (by rfl)
  exact ⟨h.1, h.2.1, h.2.2⟩

theorem buildCatsFrom_ids (lt : String) (s : Nat) (ls : List ConfigLabel) :
    (buildCatsFrom lt s ls).map (fun c => c.id) = List.range' s ls.length := by
  induction ls generalizing s with
  | nil => simp [buildCatsFrom]
  | cons l rest ih => simp [buildCatsFrom, List.range', ih]

theorem buildCatsFrom_names (lt : String) (s : Nat) (ls : List ConfigLabel) :
    (buildCatsFrom lt s ls).map (fun c => c.name) = ls.map (fun l => l.value) := by
  induction ls generalizing s with
  | nil => simp [buildCatsFrom]
  | cons l rest ih => simp [buildCatsFrom, ih]

theorem buildNameToId_lastWrite (s : Nat) (ls : List ConfigLabel)
    (m : List (String × Nat)) (n : String) :
    alGet (buildNameToId s ls m) n =
      (match specLastWriteId s ls n with
       | some i => some i
       | none => alGet m n) := by
  induction ls generalizing s m with
  | nil => simp [buildNameToId, specLastWriteId]
  | cons l rest ih =>
      simp only [buildNameToId, specLastWriteId]
      rw [ih]
      cases hs : specLastWriteId (s + 1) rest n
      · simp only
        by_cases hn : n = l.value
        · subst hn
          rw [alGet_alSet_self]
          simp
        · rw [alGet_alSet_ne m l.value n s hn]
          have : ¬ l.value = n := fun hc => hn hc.symm
          simp [this]
      · simp

/-- Claim C8: the taxonomy builder assigns ids 1, 2, … by enumeration
order within each taxonomy independently, names follow the config order,
both entries of a duplicated name stay in the category list (the list's
length equals the config's), and the name→id map resolves a name to the
id of its LAST occurrence (later write overwrites earlier); the concrete
duplicate example confirms last-write-wins with both entries retained. -/
theorem c8_taxonomy (rls pls : List ConfigLabel) :
    (mkConverter rls pls).rect_categories.map (fun c => c.id) =
      List.range' 1 rls.length ∧
    (mkConverter rls pls).poly_categories.map (fun c => c.id) =
      List.range' 1 pls.length ∧
    (mkConverter rls pls).rect_categories.map (fun c => c.name) =
      rls.map (fun l => l.value) ∧
    (mkConverter rls pls).poly_categories.map (fun c => c.name) =
      pls.map (fun l => l.value) ∧
    (mkConverter rls pls).rect_categories.length = rls.length ∧
    (mkConverter rls pls).poly_categories.length = pls.length ∧
    (∀ n, alGet (mkConverter rls pls).rect_name_to_id n = specLastWriteId 1 rls n) ∧
    (∀ n, alGet (mkConverter rls pls).poly_name_to_id n = specLastWriteId 1 pls n) ∧
    alGet (buildNameToId 1 [⟨"a", none, none⟩, ⟨"a", none, none⟩] []) "a" = some 2 ∧
    (buildCatsFrom "polygon" 1 [⟨"a", none, none⟩, ⟨"a", none, none⟩]).length = 2 := by
  have hlen1 : (mkConverter rls pls).rect_categories.length = rls.length := by
    have := congrArg List.length (buildCatsFrom_ids "rectangle" 1 rls)
    simpa [mkConverter] using this
  have hlen2 : (mkConverter rls pls).poly_categories.length = pls.length := by
    have := congrArg List.length (buildCatsFrom_ids "polygon" 1 pls)
    simpa [mkConverter] using this
  have hmap : ∀ n, alGet (buildNameToId 1 rls []) n = specLastWriteId 1 rls n := by
    intro n
    rw [buildNameToId_lastWrite]
    cases specLastWriteId 1 rls n <;> simp [alGet]
  have hmapP : ∀ n, alGet (buildNameToId 1 pls []) n = specLastWriteId 1 pls n := by
    intro n
    rw [buildNameToId_lastWrite]
    cases specLastWriteId 1 pls n <;> simp [alGet]
  refine ⟨buildCatsFrom_ids "rectangle" 1 rls, buildCatsFrom_ids "polygon" 1 pls,
    buildCatsFrom_names "rectangle" 1 rls, buildCatsFrom_names "polygon" 1 pls,
    hlen1, hlen2, hmap, hmapP, ?_, ?_⟩
  · simp [buildNameToId, alSet, alGet, specLastWriteId]
  · simp [buildCatsFrom]

/-- Claim C6: the orphan resolver scans the dictionary entries in their
stored (creation) order and binds the orphan to the first entry with a
present box whose converted inclusive bounds contain every point — every
earlier entry does not match, so of two containing boxes the
earlier-created wins; and when the scan finds no match the orphan
produces no annotation, only an unmatched diagnostic. -/
theorem c6_orphan_first_match (conv : Converter) (width height : Option ℚ)
    (absPts : List (ℚ × ℚ)) (kp : PolyLab) (d : List (String × Entry)) :
    (∀ hit, orphanScan conv width height absPts kp d = .ok (some hit) →
      ∃ l1 k e l2, d = l1 ++ (k, e) :: l2 ∧
        (∀ p ∈ l1, ¬ entryMatches width height absPts p.2) ∧
        entryMatches width height absPts e ∧
        ∃ r, e.bbox = some r ∧ convertBbox r width height = .ok hit.bbox ∧
          hit.bbox_label = r.rectanglelabels ∧
          convertSingleKeypoint kp width height =
            .ok (hit.keypoints, hit.num_keypoints)) ∧
    (orphanScan conv width height absPts kp d = .ok none →
      ∀ p ∈ d, ¬ entryMatches width height absPts p.2) ∧
    (∀ (oi imageId author lsId : Nat) (ow oh : Option ℚ)
        (anns : List OutAnn) (warns : List Warning) (w0 h0 : ℚ),
      width = some w0 → height = some h0 →
      absPts = kp.points.map (fun pt => (pt.1 * w0 / 100, pt.2 * h0 / 100)) →
      orphanScan conv width height absPts kp d = .ok none →
      processOrphans conv width height imageId author lsId d anns warns
          [⟨oi, kp, ow, oh⟩] =
        .ok (anns, warns ++ [.orphanUnmatched lsId kp.id author])) := by
  refine ⟨?_, ?_, ?_⟩
  · induction d with
    | nil =>
        intro hit hok
        simp [orphanScan] at hok
    | cons p rest ih =>
        intro hit hok
        rcases p with ⟨k0, e0⟩
        simp only [orphanScan] at hok
        split at hok
        · rename_i he
          obtain ⟨l1, k, e, l2, hd, hl1, hm, hrest⟩ := ih hit hok
          refine ⟨(k0, e0) :: l1, k, e, l2, by simp [hd], ?_, hm, hrest⟩
          intro p hp
          rcases List.mem_cons.mp hp with hp | hp
          · subst hp
            rintro ⟨r, xmin, ymin, bw, bh, hbox, _⟩
            rw [he] at hbox
            exact Option.noConfusion hbox
          · exact hl1 p hp
        · rename_i r he
          split at hok
          · exact absurd hok (by simp)
          · rename_i bbox hcb
            split at hok
            · rename_i xmin ymin bw bh
              by_cases hcont :
                  absPts.all (inBox xmin ymin (xmin + bw) (ymin + bh)) = true
              · simp only [hcont, if_true] at hok
                split at hok
                · exact absurd hok (by simp)
                · split at hok
                  · exact absurd hok (by simp)
                  · split at hok
                    · exact absurd hok (by simp)
                    · rename_i ks num hck
                      simp only [Except.ok.injEq, Option.some.injEq] at hok
                      subst hok
                      refine ⟨[], k0, e0, rest, rfl, by simp, ?_, r, he, hcb, rfl, hck⟩
                      exact ⟨r, xmin, ymin, bw, bh, he, hcb, hcont⟩
              · have hcont' :
                    absPts.all (inBox xmin ymin (xmin + bw) (ymin + bh)) = false := by
                  simpa using hcont
                rw [hcont'] at hok
                simp only [Bool.false_eq_true, if_false] at hok
                obtain ⟨l1, k, e, l2, hd, hl1, hm, hrest⟩ := ih hit hok
                refine ⟨(k0, e0) :: l1, k, e, l2, by simp [hd], ?_, hm, hrest⟩
                intro p hp
                rcases List.mem_cons.mp hp with hp | hp
                · subst hp
                  rintro ⟨r', xmin', ymin', bw', bh', hbox, hcb', hcont2⟩
                  rw [he] at hbox
                  have hr : r = r' := by
                    simpa using hbox
                  subst hr
                  rw [hcb] at hcb'
                  simp only [Except.ok.injEq, List.cons.injEq, and_true] at hcb'
                  obtain ⟨h1, h2, h3, h4⟩ := hcb'
                  rw [← h1, ← h2, ← h3, ← h4] at hcont2
                  exact hcont hcont2
                · exact hl1 p hp
            · exact absurd hok (by simp)
  · induction d with
    | nil =>
        intro _ p hp
        exact absurd hp (by simp)
    | cons p rest ih =>
        intro hok q hq
        rcases p with ⟨k0, e0⟩
        simp only [orphanScan] at hok
        split at hok
        · rename_i he
          rcases List.mem_cons.mp hq with hq | hq
          · subst hq
            rintro ⟨r, xmin, ymin, bw, bh, hbox, _⟩
            rw [he] at hbox
            exact Option.noConfusion hbox
          · exact ih hok q hq
        · rename_i r he
          split at hok
          · exact absurd hok (by simp)
          · rename_i bbox hcb
            split at hok
            · rename_i xmin ymin bw bh
              by_cases hcont :
                  absPts.all (inBox xmin ymin (xmin + bw) (ymin + bh)) = true
              · simp only [hcont, if_true] at hok
                split at hok <;> try exact absurd hok (by simp)
                split at hok <;> try exact absurd hok (by simp)
                split at hok <;> exact absurd hok (by simp)
              · have hcont' :
                    absPts.all (inBox xmin ymin (xmin + bw) (ymin + bh)) = false := by
                  simpa using hcont
                rw [hcont'] at hok
                simp only [Bool.false_eq_true, if_false] at hok
                rcases List.mem_cons.mp hq with hq | hq
                · subst hq
                  rintro ⟨r', xmin', ymin', bw', bh', hbox, hcb', hcont2⟩
                  rw [he] at hbox
                  have hr : r = r' := by
                    simpa using hbox
                  subst hr
                  rw [hcb] at hcb'
                  simp only [Except.ok.injEq, List.cons.injEq, and_true] at hcb'
                  obtain ⟨h1, h2, h3, h4⟩ := hcb'
                  rw [← h1, ← h2, ← h3, ← h4] at hcont2
                  exact hcont hcont2
                · exact ih hok q hq
            · exact absurd hok (by simp)
  · intro oi imageId author lsId ow oh anns warns w0 h0 hw hh habs hscan
    subst hw
    subst hh
    simp only [processOrphans]
    rcases hp : kp.points with _ | ⟨q, pts'⟩
    · rw [hp] at habs
      simp only [List.map_nil] at habs
      subst habs
      simp only [hp, absPointsOf]
      rw [hscan]
    · rw [hp] at habs
      simp only [hp, absPointsOf]
      rw [← habs]
      rw [hscan]

/-- Witness for C6: with two candidate boxes both containing the orphan,
the scan hits and the characterization names the earlier-created box A
(whose rectangle label the hit carries). -/
theorem c6_orphan_first_match_witness :
    orphanScan convFix (some 10) (some 10) [((2 : ℚ), (2 : ℚ)), (8, 8)] kpTwo dictTwo
      = .ok (some hitTwo) ∧
    ∃ l1 k e l2, dictTwo = l1 ++ (k, e) :: l2 ∧
      (∀ p ∈ l1, ¬ entryMatches (some 10) (some 10) [((2 : ℚ), (2 : ℚ)), (8, 8)] p.2) ∧
      entryMatches (some 10) (some 10) [((2 : ℚ), (2 : ℚ)), (8, 8)] e ∧
      ∃ r, e.bbox = some r ∧
        convertBbox r (some 10) (some 10) = .ok hitTwo.bbox ∧
        hitTwo.bbox_label = r.rectanglelabels ∧
        convertSingleKeypoint kpTwo (some 10) (some 10) =
          .ok (hitTwo.keypoints, hitTwo.num_keypoints) := by
  have hscan : orphanScan convFix (some 10) (some 10)
      [((2 : ℚ), (2 : ℚ)), (8, 8)] kpTwo dictTwo = .ok (some hitTwo) := by
    norm_num [orphanScan, convertBbox, convertSingleKeypoint, inBox, pyFalsy,
      headName, lookupId, alGet, dictTwo, rectA, rectB, kpTwo, hitTwo, convFix,
      mkConverter, buildNameToId, buildCatsFrom, alSet, flattenPts, List.all,
      (by decide : ¬("side" : String) = "front"),
      (by decide : ¬("back" : String) = "front"),
      (by decide : ¬("back" : String) = "side")]
  exact ⟨hscan,
    (c6_orphan_first_match convFix (some 10) (some 10) _ kpTwo dictTwo).1 hitTwo hscan⟩

end LSKpt
